import Mathlib

/-!
Verification development for the Hollow Host repository.

The only executable code in the repository is the client-side script
`src/ui/static/js/main.js`; it is embedded below as pure functions over an
explicit client state.  The combat resolution engine described by the
repository's documents is not present under `src/`; its operations are
modelled from the specification text and marked as such in their doc
comments.
-/

namespace HollowHost

/-! ## Client script embedding (from `src/ui/static/js/main.js`) -/

/-- A DOM message node as created by the script: a `div` with a CSS class
and a text content. -/
structure Msg where
  className : String
  textContent : String
deriving DecidableEq, Repr

/-- Client-side state touched by the submit handler: the message log
children and the value of the `player-input` field. -/
structure ClientState where
  messageLog : List Msg
  inputValue : String
deriving DecidableEq, Repr

/-- An HTTP request issued by `fetch` in the handler. -/
structure HttpRequest where
  url : String
  method : String
  contentType : String
  body : String
deriving DecidableEq, Repr

/-- Outcome of the `fetch('/send', ...)` call followed by
`response.json()`: either some step threw (network failure or non-JSON
body), or a parsed JSON object.  The parsed object is modelled by its
`type` field, the `formatted` and `response` payload fields, and
`result`, which is `some m` when `data.result` is an object whose
`message` field is `m` and `none` when `data.result` is absent (so that
`data.result.message` throws). -/
inductive FetchOutcome where
  | failure
  | json (rtype : String) (formatted : String) (response : String)
         (result : Option String)
deriving DecidableEq, Repr

/-- Whitespace recognised by JavaScript `String.prototype.trim`
(the common code points: space, tab, LF, CR, FF, VT). -/
def isJsWhitespace (c : Char) : Bool :=
  c = ' ' || c = '\t' || c = '\n' || c = '\r' || c = '\x0c' || c = '\x0b'

/-- Embedding of JavaScript `String.prototype.trim`: drop leading and
trailing whitespace. -/
def jsTrim (s : String) : String :=
  let l := s.toList.dropWhile isJsWhitespace
  String.mk ((l.reverse.dropWhile isJsWhitespace).reverse)

/-- Hexadecimal digit character (uppercase), as produced by
`encodeURIComponent` percent escapes. -/
def hexDigitChar (n : Nat) : Char :=
  if n < 10 then Char.ofNat (48 + n) else Char.ofNat (55 + n)

/-- Characters left unescaped by JavaScript `encodeURIComponent`:
alphanumerics and `- _ . ! ~ * ' ( )`. -/
def isUnreservedComponentChar (c : Char) : Bool :=
  c.isAlphanum || c = '-' || c = '_' || c = '.' || c = '!' || c = '~' ||
    c = '*' || c = '\'' || c = '(' || c = ')'

/-- UTF-8 bytes of a Unicode code point. -/
def utf8BytesOfCodePoint (n : Nat) : List Nat :=
  if n < 128 then [n]
  else if n < 2048 then [192 + n / 64, 128 + n % 64]
  else if n < 65536 then [224 + n / 4096, 128 + (n / 64) % 64, 128 + n % 64]
  else [240 + n / 262144, 128 + (n / 4096) % 64, 128 + (n / 64) % 64,
        128 + n % 64]

/-- Embedding of JavaScript `encodeURIComponent`: unreserved characters
pass through, every other character is percent-escaped per UTF-8 byte. -/
def encodeURIComponentStr (s : String) : String :=
  String.mk ((s.toList.map (fun c =>
    if isUnreservedComponentChar c then [c]
    else (utf8BytesOfCodePoint c.toNat).map (fun b =>
      ['%', hexDigitChar (b / 16), hexDigitChar (b % 16)])
      |>.flatten)).flatten)

/-- The player message node built in the handler
(`className = "message player-message"`). -/
def playerMessage (txt : String) : Msg :=
  ⟨"message player-message", txt⟩

/-- A DM message node (`className = "message dm-message"`). -/
def dmMessage (txt : String) : Msg :=
  ⟨"message dm-message", txt⟩

/-- The error message node appended by the `catch` block. -/
def errorMessage : Msg :=
  ⟨"message error-message", "Error processing command. Please try again."⟩

/-- Messages appended after the `fetch` for a given outcome, following the
`data.type` dispatch of the handler: `roll` renders `data.formatted`,
`narrative` renders `data.response`, `command` renders
`data.result.message` (throwing into the `catch` block when `data.result`
is absent), any other type renders nothing, and a thrown error appends the
error message. -/
def renderResponse (o : FetchOutcome) : List Msg :=
  match o with
  | .failure => [errorMessage]
  | .json t fm rsp res =>
    if t = "roll" then [dmMessage fm]
    else if t = "narrative" then [dmMessage rsp]
    else if t = "command" then
      match res with
      | some m => [dmMessage m]
      | none => [errorMessage]
    else []

/-- Result of one run of the submit handler: the final client state and
the list of HTTP requests issued. -/
structure SubmitResult where
  state : ClientState
  requests : List HttpRequest
deriving DecidableEq, Repr

/-- Embedding of the `commandForm` submit handler of
`src/ui/static/js/main.js`: trims the input and returns doing nothing when
it is empty; otherwise appends the player message, clears the input, posts
the command to `/send` as a URL-encoded `player_input` field, and appends
the messages produced by the response dispatch (or the catch block). -/
def handleSubmit (st : ClientState) (o : FetchOutcome) : SubmitResult :=
  let input := jsTrim st.inputValue
  if input = "" then ⟨st, []⟩
  else
    ⟨⟨st.messageLog ++ [playerMessage input] ++ renderResponse o, ""⟩,
     [⟨"/send", "POST", "application/x-www-form-urlencoded",
       "player_input=" ++ encodeURIComponentStr input⟩]⟩

/-! ## Combat engine: dice and resolution evaluator -/

/-- Modelled from the spec: the error taxonomy of §7; all engine failures
are one of these kinds, surfaced synchronously to the caller. -/
inductive EngineError where
  | InvalidRulesetError
  | EmptyEncounterError
  | EncounterTerminalError
  | NotYourTurnError
  | ActionAlreadyUsedError
  | InvalidActionTypeError
  | InsufficientMovementError
  | MalformedExpressionError
  | UnknownStatReferenceError
deriving DecidableEq, Repr

/-- Modelled from the spec: the optional signed flat modifier of a dice
expression, either a literal number or a reference to a named stat looked
up in the evaluation context. -/
inductive Modifier where
  | num (k : Int)
  | stat (negSign : Bool) (name : String)
deriving DecidableEq, Repr

/-- Modelled from the spec: a parsed dice expression `NdM[+|-]modifier`
(`n` dice of `m` sides plus a modifier). -/
structure DiceExpr where
  n : Nat
  m : Nat
  mod : Modifier
deriving DecidableEq, Repr

/-- Modelled from the spec: the structural result of evaluating a dice
expression — the individual die values and the total. -/
structure RollResult where
  dice : List Nat
  total : Int
deriving DecidableEq, Repr

/-- Numeric value of a digit character. -/
def digitVal (c : Char) : Nat := c.toNat - 48

/-- Value of a digit string (most significant digit first). -/
def digitsToNat (l : List Char) : Nat :=
  l.foldl (fun a c => 10 * a + digitVal c) 0

/-- Modelled from the spec: parse the `[+|-]modifier` tail of a dice
expression — empty means no flat modifier, a sign followed by digits is a
literal modifier, a sign followed by letters is a named stat reference. -/
def parseModTail (nv mv : Nat) (rest : List Char) :
    Except EngineError DiceExpr :=
  match rest with
  | [] => .ok ⟨nv, mv, .num 0⟩
  | sign :: body =>
    if sign = '+' ∨ sign = '-' then
      if body ≠ [] ∧ body.all Char.isDigit then
        .ok ⟨nv, mv, .num (if sign = '-' then -(digitsToNat body : Int)
                           else (digitsToNat body : Int))⟩
      else if body ≠ [] ∧ body.all Char.isAlpha then
        .ok ⟨nv, mv, .stat (sign = '-') (String.mk body)⟩
      else .error .MalformedExpressionError
    else .error .MalformedExpressionError

/-- Modelled from the spec: parse the part of a dice expression after the
`d`, given the already-read die count `nv`; zero dice or zero-sided dice
are rejected as malformed. -/
def parseAfterD (nv : Nat) (rest2 : List Char) :
    Except EngineError DiceExpr :=
  if nv = 0 ∨ digitsToNat (rest2.takeWhile Char.isDigit) = 0 then
    .error .MalformedExpressionError
  else
    parseModTail nv (digitsToNat (rest2.takeWhile Char.isDigit))
      (rest2.dropWhile Char.isDigit)

/-- Modelled from the spec: the parser behind `evaluateFormula`, reading
an expression of the form `NdM[+|-]modifier`, where the modifier is a
number or a named stat; zero dice or zero-sided dice are rejected as
malformed. Fails with `MalformedExpressionError` on unparseable input. -/
def parseFormula (s : String) : Except EngineError DiceExpr :=
  match s.toList.dropWhile Char.isDigit with
  | 'd' :: rest2 =>
    parseAfterD (digitsToNat (s.toList.takeWhile Char.isDigit)) rest2
  | _ => .error .MalformedExpressionError

/-- Look a named stat up in an evaluation context. -/
def lookupStat (ctx : List (String × Int)) (name : String) : Option Int :=
  (ctx.find? (fun p => p.1 = name)).map (·.2)

/-- Modelled from the spec: resolve the modifier of a dice expression
against the context; an absent stat reference fails with
`UnknownStatReferenceError`. -/
def resolveModifier (mo : Modifier) (ctx : List (String × Int)) :
    Except EngineError Int :=
  match mo with
  | .num k => .ok k
  | .stat neg name =>
    match lookupStat ctx name with
    | some v => .ok (if neg then -v else v)
    | none => .error .UnknownStatReferenceError

/-- Modelled from the spec: roll `n` dice of `m` sides from the injected
random source; die `i` takes the value `rng i % m + 1`. -/
def rollDice (rng : Nat → Nat) (n m : Nat) : List Nat :=
  (List.range n).map (fun i => rng i % m + 1)

/-- Modelled from the spec: evaluate a parsed dice expression against a
context and an injected random source, producing the individual die
values and the total (dice sum plus resolved modifier). -/
def evalDiceExpr (ex : DiceExpr) (ctx : List (String × Int))
    (rng : Nat → Nat) : Except EngineError RollResult :=
  match resolveModifier ex.mod ctx with
  | .error er => .error er
  | .ok k =>
    let ds := rollDice rng ex.n ex.m
    .ok ⟨ds, (ds.sum : Int) + k⟩

/-- Modelled from the spec: `evaluateFormula(expression, context)` —
parse the dice expression and evaluate it deterministically given a
supplied random source. -/
def evaluateFormula (s : String) (ctx : List (String × Int))
    (rng : Nat → Nat) : Except EngineError RollResult :=
  match parseFormula s with
  | .error er => .error er
  | .ok ex => evalDiceExpr ex ctx rng

/-- The random source shifted past its first `off` draws. -/
def shiftRng (rng : Nat → Nat) (off : Nat) : Nat → Nat :=
  fun i => rng (off + i)

/-! ## Combat engine: data model -/

/-- Modelled from the spec: a named status effect with an optional
duration in rounds; incapacitating effects cause the combatant to be
passed over on its turn. -/
structure StatusEffect where
  name : String
  duration : Option Nat
  incapacitating : Bool
deriving DecidableEq, Repr

/-- Modelled from the spec: a Combatant — identity, side, stat block,
initiative score, declared tiebreaker stat, registration order, hit
points, defense value, per-round action-availability flags, and status
effects. -/
structure Combatant where
  id : Nat
  side : Nat
  stats : List (String × Int)
  initiative : Int
  tiebreak : Int
  regIndex : Nat
  hp : Int
  defense : Int
  standardUsed : Bool
  moveUsed : Bool
  bonusUsed : Bool
  reactionUsed : Bool
  statusEffects : List StatusEffect
deriving DecidableEq, Repr

/-- Modelled from the spec: the four action types of the action economy. -/
inductive ActionType where
  | Standard
  | Move
  | Bonus
  | Reaction
deriving DecidableEq, Repr

/-- Modelled from the spec: recognize a declared action type name;
unrecognized names lead to `InvalidActionTypeError`. -/
def parseActionType : String → Option ActionType
  | "standard" => some .Standard
  | "move" => some .Move
  | "bonus" => some .Bonus
  | "reaction" => some .Reaction
  | _ => none

/-- The availability flag for an action type (true means consumed). -/
def flagUsed (t : ActionType) (c : Combatant) : Bool :=
  match t with
  | .Standard => c.standardUsed
  | .Move => c.moveUsed
  | .Bonus => c.bonusUsed
  | .Reaction => c.reactionUsed

/-- Consume the availability flag for an action type. -/
def setFlagUsed (t : ActionType) (c : Combatant) : Combatant :=
  match t with
  | .Standard => { c with standardUsed := true }
  | .Move => { c with moveUsed := true }
  | .Bonus => { c with bonusUsed := true }
  | .Reaction => { c with reactionUsed := true }

/-- Reset all per-round action-availability flags of a combatant. -/
def resetFlags (c : Combatant) : Combatant :=
  { c with standardUsed := false, moveUsed := false,
           bonusUsed := false, reactionUsed := false }

/-- Modelled from the spec: the event kinds of §4.4; each carries the
minimal snapshot needed to reconstruct the transition. -/
inductive Event where
  | InitiativeRolled (idx : Nat) (value : Int)
  | TurnAdvanced (newPtr : Nat)
  | RoundAdvanced (newRound : Nat) (newPtr : Nat)
  | ActionDeclared (actorIdx : Nat) (atype : ActionType)
  | ActionResolved (actorIdx targetIdx : Nat) (attackTotal : Int)
                   (hit : Bool) (newHp : Int)
  | StatusApplied (targetIdx : Nat) (eff : StatusEffect)
  | StatusExpired (targetIdx : Nat) (effName : String)
  | EncounterEnded
deriving DecidableEq, Repr

/-- Modelled from the spec: an Encounter — the ordered combatant
sequence, current round number, current turn pointer, and the append-only
combat log. -/
structure Encounter where
  combatants : List Combatant
  round : Nat
  turnPtr : Nat
  log : List Event
deriving DecidableEq, Repr

/-- Modelled from the spec: an ActionDeclaration — the actor (by position
in the ordered sequence), the declared action type name, the optional
target, and whether a qualifying external event triggers a reaction. -/
structure ActionDeclaration where
  actorIdx : Nat
  atype : String
  target : Option Nat
  reactionTrigger : Bool
deriving DecidableEq, Repr

/-- Apply a function to the element at an index, leaving the list
unchanged when the index is out of range. -/
def modifyAt : List α → Nat → (α → α) → List α
  | [], _, _ => []
  | x :: xs, 0, f => f x :: xs
  | x :: xs, i + 1, f => x :: modifyAt xs i f

/-- Modelled from the spec: a combatant is active when it has positive
hit points and no incapacitating status effect. -/
def isActive (c : Combatant) : Bool :=
  decide (0 < c.hp) && !(c.statusEffects.any (·.incapacitating))

/-- The part of a combatant that decides terminality and the skip
policy: its side and whether it is active. -/
def combatSig (c : Combatant) : Nat × Bool := (c.side, isActive c)

/-- Signatures of all combatants. -/
def sigOf (cs : List Combatant) : List (Nat × Bool) := cs.map combatSig

/-- Modelled from the spec: an encounter is terminal when some side that
has a combatant has zero remaining active combatants. -/
def terminalOfSig (l : List (Nat × Bool)) : Bool :=
  l.any (fun c => !(l.any (fun d => d.1 == c.1 && d.2)))

/-- Terminality of a combatant sequence. -/
def terminalB (cs : List Combatant) : Bool := terminalOfSig (sigOf cs)

/-- Indices at which a mask of activity bits is true. -/
def activeIdxsOfMask (bs : List Bool) : List Nat :=
  (List.range bs.length).filter (fun i => bs.getD i false)

/-- Positions of the active combatants in the ordered sequence. -/
def activeIdxs (cs : List Combatant) : List Nat :=
  activeIdxsOfMask ((sigOf cs).map (·.2))

/-- The cyclic successor of a pointer within a list of positions: the
first position strictly greater than the pointer, or — wrapping, flagged
`true` — the first position of the list. -/
def cycNext (l : List Nat) (p : Nat) : Option (Nat × Bool) :=
  match l.find? (fun j => decide (p < j)) with
  | some j => some (j, false)
  | none =>
    match l with
    | [] => none
    | j0 :: _ => some (j0, true)

/-- Modelled from the spec: `emit(encounter, event)` appends to the log
and returns the event's assigned monotonically increasing sequence
number; prior events are never mutated. -/
def emit (e : Encounter) (ev : Event) : Encounter × Nat :=
  ({ e with log := e.log ++ [ev] }, e.log.length)

/-! ## Combat engine: operations -/

/-- Modelled from the spec: `advanceTurn(encounter)` — moves the turn
pointer to the next active (non-defeated, non-skipped) combatant; when
the pointer wraps past the end of the sequence it increments the round
counter and resets the per-round action-availability flags of all
combatants; errors with `EncounterTerminalError` on a terminal
encounter. -/
def advanceTurn (e : Encounter) : Encounter × Option EngineError :=
  if terminalB e.combatants then (e, some .EncounterTerminalError)
  else
    match cycNext (activeIdxs e.combatants) e.turnPtr with
    | none => (e, some .EncounterTerminalError)
    | some (j, false) =>
      ((emit { e with turnPtr := j } (.TurnAdvanced j)).1, none)
    | some (j, true) =>
      ((emit { e with combatants := e.combatants.map resetFlags,
                      round := e.round + 1, turnPtr := j }
          (.RoundAdvanced (e.round + 1) j)).1, none)

/-- Modelled from the spec: `declareAction(encounter, declaration)` —
checks that the type is recognized, that the encounter is not terminal,
that it is the declaring combatant's turn (or that a qualifying external
event triggers a reaction), and that the availability flag is unused this
round; on success consumes the flag and logs the declaration. -/
def declareAction (e : Encounter) (d : ActionDeclaration) :
    Encounter × Option EngineError :=
  match parseActionType d.atype with
  | none => (e, some .InvalidActionTypeError)
  | some t =>
    if terminalB e.combatants then (e, some .EncounterTerminalError)
    else
      match e.combatants[d.actorIdx]? with
      | none => (e, some .NotYourTurnError)
      | some c =>
        if t = .Reaction then
          if !d.reactionTrigger then (e, some .NotYourTurnError)
          else if c.reactionUsed then (e, some .ActionAlreadyUsedError)
          else
            let cs' := modifyAt e.combatants d.actorIdx (setFlagUsed t)
            ((emit { e with combatants := cs' }
              (.ActionDeclared d.actorIdx t)).1, none)
        else
          if d.actorIdx ≠ e.turnPtr then (e, some .NotYourTurnError)
          else if flagUsed t c then (e, some .ActionAlreadyUsedError)
          else
            let cs' := modifyAt e.combatants d.actorIdx (setFlagUsed t)
            ((emit { e with combatants := cs' }
              (.ActionDeclared d.actorIdx t)).1, none)

/-- The attacker's stat context for formula evaluation. -/
def attackCtx (e : Encounter) (actorIdx : Nat) : List (String × Int) :=
  ((e.combatants[actorIdx]?).map (·.stats)).getD []

/-- Apply a resolved attack: compare the attack total with the target's
defense, a hit reduces the target's hit points by the damage total (zero
on a miss), and the resolution is logged with its snapshot. -/
def attackApply (e : Encounter) (actorIdx targetIdx : Nat)
    (ares dres : RollResult) : Encounter × Option EngineError :=
  let defense := ((e.combatants[targetIdx]?).map (·.defense)).getD 0
  let hit := decide (defense ≤ ares.total)
  let oldHp := ((e.combatants[targetIdx]?).map (·.hp)).getD 0
  let newHp := if hit then oldHp - dres.total else oldHp
  let cs' := modifyAt e.combatants targetIdx (fun c => { c with hp := newHp })
  ((emit { e with combatants := cs' }
      (.ActionResolved actorIdx targetIdx ares.total hit newHp)).1,
   none)

/-- Modelled from the spec: `resolveAttack` applied to the encounter —
rolls the attacker's formula against the target's defense (success when
total ≥ defense); on success rolls the damage formula and applies the
hit-point delta (zero damage on a miss); the resolution is logged with
the minimal snapshot needed to reconstruct it. -/
def attackResolve (e : Encounter) (actorIdx targetIdx : Nat)
    (atk dmg : DiceExpr) (rng : Nat → Nat) :
    Encounter × Option EngineError :=
  match evalDiceExpr atk (attackCtx e actorIdx) rng with
  | .error er => (e, some er)
  | .ok ares =>
    match evalDiceExpr dmg (attackCtx e actorIdx) (shiftRng rng atk.n) with
    | .error er => (e, some er)
    | .ok dres => attackApply e actorIdx targetIdx ares dres

/-- An engine operation on an existing encounter. -/
inductive Op where
  | advance
  | declare (d : ActionDeclaration)
  | attack (actorIdx targetIdx : Nat) (atk dmg : DiceExpr)
           (rng : Nat → Nat)

/-- Dispatch an operation. -/
def applyOp (e : Encounter) : Op → Encounter × Option EngineError
  | .advance => advanceTurn e
  | .declare d => declareAction e d
  | .attack a t atk dmg rng => attackResolve e a t atk dmg rng

/-- Run a sequence of operations, keeping the resulting state of each
(failed operations leave the state unchanged). -/
def runOps (e : Encounter) : List Op → Encounter
  | [] => e
  | op :: ops => runOps (applyOp e op).1 ops

/-- Iterate `advanceTurn`, keeping the resulting state of each call. -/
def advanceTurnN (e : Encounter) : Nat → Encounter
  | 0 => e
  | k + 1 => advanceTurnN (advanceTurn e).1 k

/-! ## Combat engine: log replay and encounter start -/

/-- Modelled from the spec: apply one logged event to a state, using the
snapshot the event carries; used to replay an encounter from its log. -/
def applyEvent (e : Encounter) : Event → Encounter
  | .InitiativeRolled _ _ => e
  | .TurnAdvanced p => { e with turnPtr := p }
  | .RoundAdvanced rd p =>
    { e with combatants := e.combatants.map resetFlags,
             round := rd, turnPtr := p }
  | .ActionDeclared i t =>
    { e with combatants := modifyAt e.combatants i (setFlagUsed t) }
  | .ActionResolved _ tgt _ _ newHp =>
    { e with combatants := modifyAt e.combatants tgt (fun c => { c with hp := newHp }) }
  | .StatusApplied i eff =>
    { e with combatants := modifyAt e.combatants i (fun c => { c with statusEffects := c.statusEffects ++ [eff] }) }
  | .StatusExpired i nm =>
    { e with combatants := modifyAt e.combatants i (fun c => { c with statusEffects := c.statusEffects.filter (fun f => f.name ≠ nm) }) }
  | .EncounterEnded => e

/-- Replay a list of events from a state. -/
def replay (e0 : Encounter) (evs : List Event) : Encounter :=
  evs.foldl applyEvent e0

/-- Observable encounter state named by the round-trip property: hit
points, round number, and turn pointer. -/
def StateEq (a b : Encounter) : Prop :=
  a.combatants.map (·.hp) = b.combatants.map (·.hp) ∧
  a.round = b.round ∧ a.turnPtr = b.turnPtr

/-- Modelled from the spec: the stat block supplied by the external
character store at encounter start, with an optional pre-supplied
initiative value. -/
structure CombatantSpec where
  id : Nat
  side : Nat
  stats : List (String × Int)
  tiebreak : Int
  hp : Int
  defense : Int
  preInit : Option Int
deriving DecidableEq, Repr

/-- Modelled from the spec: the RulesetBinding policy surface used by the
engine — the initiative formula string and the configurable policies
(ties, movement splitting, critical threshold). -/
structure Ruleset where
  initiativeFormula : Option String
  attackBeatsTies : Bool
  defenderWinsTies : Bool
  splitMovement : Bool
  criticalThreshold : Option Nat
deriving DecidableEq, Repr

/-- Modelled from the spec: the declared total order on combatants —
descending by initiative, ties broken by higher declared tiebreaker stat,
then by stable registration order. -/
def initOrderBefore (a b : Combatant) : Bool :=
  if a.initiative ≠ b.initiative then decide (b.initiative < a.initiative)
  else if a.tiebreak ≠ b.tiebreak then decide (b.tiebreak < a.tiebreak)
  else decide (a.regIndex ≤ b.regIndex)

/-- Insert a combatant into an initiative-ordered list. -/
def insertByOrder (c : Combatant) : List Combatant → List Combatant
  | [] => [c]
  | x :: xs =>
    if initOrderBefore c x then c :: x :: xs else x :: insertByOrder c xs

/-- Insertion sort by the declared initiative order. -/
def sortByInitiative : List Combatant → List Combatant
  | [] => []
  | c :: cs => insertByOrder c (sortByInitiative cs)

/-- Modelled from the spec: roll (or accept a pre-supplied) initiative
value for each combatant, combatant `j` drawing from the random source
shifted past `j * ex.n` draws. -/
def rollInits (ex : DiceExpr) (rng : Nat → Nat) :
    List CombatantSpec → Nat → Except EngineError (List Int)
  | [], _ => .ok []
  | sp :: rest, j =>
    let rolled : Except EngineError Int :=
      match sp.preInit with
      | some v => .ok v
      | none => (evalDiceExpr ex sp.stats (shiftRng rng (j * ex.n))).map (·.total)
    match rolled with
    | .error er => .error er
    | .ok v =>
      match rollInits ex rng rest (j + 1) with
      | .error er => .error er
      | .ok vs => .ok (v :: vs)

/-- Build the engine-owned combatant record from a stat block, a rolled
initiative value, and the registration index. -/
def mkCombatant (sp : CombatantSpec) (initVal : Int) (j : Nat) : Combatant :=
  ⟨sp.id, sp.side, sp.stats, initVal, sp.tiebreak, j, sp.hp, sp.defense,
   false, false, false, false, []⟩

/-- Build all combatant records, numbering registration order from `j`. -/
def buildCombatants : List CombatantSpec → List Int → Nat → List Combatant
  | [], _, _ => []
  | _ :: _, [], _ => []
  | sp :: rest, v :: vs, j => mkCombatant sp v j :: buildCombatants rest vs (j + 1)

/-- The `InitiativeRolled` events opening an encounter log, position `j`
onward. -/
def initLog : List Combatant → Nat → List Event
  | [], _ => []
  | c :: rest, j => .InitiativeRolled j c.initiative :: initLog rest (j + 1)

/-- Modelled from the spec: `startEncounter(combatants, ruleset)` — rolls
(or accepts pre-supplied) initiative for each combatant with the
ruleset's initiative formula, orders them by the declared total order,
and returns the encounter in round 1 with the turn pointer at index 0 and
the initiative rolls logged. Fails with `EmptyEncounterError` on zero
combatants and `InvalidRulesetError` when the ruleset lacks an initiative
formula. -/
def startEncounter (specs : List CombatantSpec) (rs : Ruleset)
    (rng : Nat → Nat) : Except EngineError Encounter :=
  if specs.isEmpty then .error .EmptyEncounterError
  else
    match rs.initiativeFormula with
    | none => .error .InvalidRulesetError
    | some fs =>
      match parseFormula fs with
      | .error er => .error er
      | .ok ex =>
        match rollInits ex rng specs 0 with
        | .error er => .error er
        | .ok vals =>
          let ordered := sortByInitiative (buildCombatants specs vals 0)
          .ok ⟨ordered, 1, 0, initLog ordered 0⟩

/-- Number of dice one initiative roll consumes under a ruleset (zero
when no formula parses). -/
def initDiceCount (rs : Ruleset) : Nat :=
  match rs.initiativeFormula with
  | none => 0
  | some fs =>
    match parseFormula fs with
    | .ok ex => ex.n
    | .error _ => 0

/-- The `k`-th entry of a list of positions (`0` past the end). -/
def nth (l : List Nat) (k : Nat) : Nat := (l.drop k).headD 0

/-- The orbit of the cyclic successor: pointer after `k` steps, paired
with the number of wraps taken. -/
def iterCyc (l : List Nat) : Nat → Nat → Nat × Nat
  | 0, p => (p, 0)
  | k + 1, p =>
    match cycNext l p with
    | none => (p, 0)
    | some (q, wr) =>
      ((iterCyc l k q).1, (iterCyc l k q).2 + if wr then 1 else 0)

/-! ## Theorems -/

/-- A successfully parsed modifier tail keeps the supplied die count and
side count. -/
theorem parseModTail_ok_shape {nv mv : Nat} {rest : List Char}
    {ex : DiceExpr} (h : parseModTail nv mv rest = .ok ex) :
    ex.n = nv ∧ ex.m = mv := by
  unfold parseModTail at h
  repeat' split at h
  all_goals first
    | (injection h with h2
       subst h2
       exact ⟨rfl, rfl⟩)
    | cases h

/-- A successfully parsed formula has at least one die and at least one
side per die. -/
theorem parseFormula_ok_pos {s : String} {ex : DiceExpr}
    (h : parseFormula s = .ok ex) : 0 < ex.n ∧ 0 < ex.m := by
  unfold parseFormula at h
  split at h
  · unfold parseAfterD at h
    split at h
    · cases h
    next hcond =>
      push_neg at hcond
      obtain ⟨hs1, hs2⟩ := parseModTail_ok_shape h
      omega
  · cases h

/-- Sum bounds for a list of naturals each between `1` and `m`. -/
theorem natList_sum_bounds (m : Nat) (l : List Nat)
    (h : ∀ x ∈ l, 1 ≤ x ∧ x ≤ m) :
    l.length ≤ l.sum ∧ l.sum ≤ l.length * m := by
  induction l with
  | nil => simp
  | cons x xs ih =>
    have hx := h x (List.mem_cons_self _ _)
    have hxs := ih (fun y hy => h y (List.mem_cons_of_mem _ hy))
    simp only [List.length_cons, List.sum_cons]
    constructor
    · omega
    · calc x + xs.sum ≤ m + xs.length * m := Nat.add_le_add hx.2 hxs.2
        _ = (xs.length + 1) * m := by ring

/-- Every rolled die value lies between `1` and the number of sides. -/
theorem rollDice_mem_bounds (rng : Nat → Nat) (n m : Nat) (hm : 0 < m) :
    ∀ x ∈ rollDice rng n m, 1 ≤ x ∧ x ≤ m := by
  intro x hx
  simp only [rollDice, List.mem_map, List.mem_range] at hx
  obtain ⟨i, _, rfl⟩ := hx
  have := Nat.mod_lt (rng i) hm
  omega

/-- A point update by a function that `g` cannot observe leaves the
`g`-image of the list unchanged. -/
theorem map_modifyAt_invariant {α β : Type} (g : α → β) (f : α → α)
    (h : ∀ a, g (f a) = g a) :
    ∀ (l : List α) (i : Nat), (modifyAt l i f).map g = l.map g := by
  intro l
  induction l with
  | nil => intro i; rfl
  | cons x xs ih =>
    intro i
    cases i with
    | zero => simp [modifyAt, h]
    | succ n => simp [modifyAt, ih n]

/-- Reading back the updated index after a point update. -/
theorem modifyAt_getElem_self {α : Type} (f : α → α) :
    ∀ (l : List α) (i : Nat), (modifyAt l i f)[i]? = (l[i]?).map f := by
  intro l
  induction l with
  | nil => intro i; simp [modifyAt]
  | cons x xs ih =>
    intro i
    cases i with
    | zero => simp [modifyAt]
    | succ n => simp [modifyAt, ih n]

/-- A point update of the hit points commutes with taking the list of
hit points. -/
theorem map_hp_modifyAt_const (v : Int) :
    ∀ (cs : List Combatant) (i : Nat),
      (modifyAt cs i (fun c => { c with hp := v })).map (·.hp) =
        modifyAt (cs.map (·.hp)) i (fun _ => v) := by
  intro cs
  induction cs with
  | nil => intro i; rfl
  | cons x xs ih =>
    intro i
    cases i with
    | zero => rfl
    | succ n => simp [modifyAt, ih n]

/-- Consuming an action flag sets it. -/
theorem flagUsed_setFlagUsed_self (t : ActionType) (c : Combatant) :
    flagUsed t (setFlagUsed t c) = true := by
  cases t <;> rfl

/-- Consuming a flag does not change side or activity. -/
theorem combatSig_setFlagUsed (t : ActionType) (a : Combatant) :
    combatSig (setFlagUsed t a) = combatSig a := by
  cases t <;> rfl

/-- Flag consumption preserves the terminality/activity signature. -/
theorem sigOf_modifyAt_setFlag (cs : List Combatant) (i : Nat)
    (t : ActionType) :
    sigOf (modifyAt cs i (setFlagUsed t)) = sigOf cs :=
  map_modifyAt_invariant combatSig (setFlagUsed t)
    (combatSig_setFlagUsed t) cs i

/-- Hit-point updates preserve flags, so flag resets commute out of the
signature. -/
theorem sigOf_map_resetFlags (cs : List Combatant) :
    sigOf (cs.map resetFlags) = sigOf cs := by
  unfold sigOf
  rw [List.map_map]
  exact List.map_congr_left (fun a _ => rfl)

/-- An hp point update preserves the signature image used by
terminality only when activity is unchanged; in contrast the flag-only
updates always preserve it.  Every operation's result either keeps the
state or reports no error. -/
theorem applyOp_frame_or_ok (e : Encounter) (op : Op) :
    (applyOp e op).1 = e ∨ (applyOp e op).2 = none := by
  cases op with
  | advance =>
    simp only [applyOp]
    unfold advanceTurn
    repeat' split
    all_goals first
      | (left; rfl)
      | (right; rfl)
  | declare d =>
    simp only [applyOp]
    unfold declareAction
    repeat' split
    all_goals first
      | (left; rfl)
      | (right; rfl)
  | attack a t atk dmg rng =>
    simp only [applyOp]
    unfold attackResolve
    repeat' split
    all_goals first
      | (left; rfl)
      | (right; rfl)

/-- Every operation only ever appends to the log. -/
theorem applyOp_log_extends (e : Encounter) (op : Op) :
    ∃ t, (applyOp e op).1.log = e.log ++ t := by
  cases op with
  | advance =>
    simp only [applyOp]
    unfold advanceTurn
    repeat' split
    all_goals first
      | exact ⟨[], (List.append_nil _).symm⟩
      | exact ⟨_, rfl⟩
  | declare d =>
    simp only [applyOp]
    unfold declareAction
    repeat' split
    all_goals first
      | exact ⟨[], (List.append_nil _).symm⟩
      | exact ⟨_, rfl⟩
  | attack a t atk dmg rng =>
    simp only [applyOp]
    unfold attackResolve
    repeat' split
    all_goals first
      | exact ⟨[], (List.append_nil _).symm⟩
      | exact ⟨_, rfl⟩

/-- A successful non-reaction declaration implies the turn and flag
checks passed. -/
theorem declareAction_none_conditions {e : Encounter}
    {d : ActionDeclaration} {t : ActionType}
    (ht : parseActionType d.atype = some t) (hR : t ≠ .Reaction)
    (h : (declareAction e d).2 = none) :
    terminalB e.combatants = false ∧ d.actorIdx = e.turnPtr ∧
    ∃ c, e.combatants[d.actorIdx]? = some c ∧ flagUsed t c = false := by
  unfold declareAction at h
  rw [ht] at h
  split at h
  next heq => cases heq
  next t2 heq =>
    injection heq with heq2
    subst heq2
    split at h
    · simp at h
    next hterm =>
      split at h
      · simp at h
      next c hlook =>
        split at h
        · simp at h
        next hptr =>
          split at h
          · simp at h
          next hflag =>
            exact ⟨by simpa using hterm, by simpa using hptr,
              c, hlook, by simpa using hflag⟩

/-- The state a successful non-reaction declaration produces: the
actor's flag consumed and the declaration logged. -/
theorem declareAction_success_eq {e : Encounter} {d : ActionDeclaration}
    {t : ActionType} {c : Combatant}
    (ht : parseActionType d.atype = some t) (hR : t ≠ .Reaction)
    (hterm : terminalB e.combatants = false)
    (hlook : e.combatants[d.actorIdx]? = some c)
    (hptr : d.actorIdx = e.turnPtr)
    (hflag : flagUsed t c = false) :
    declareAction e d =
      (⟨modifyAt e.combatants d.actorIdx (setFlagUsed t), e.round,
        e.turnPtr, e.log ++ [.ActionDeclared d.actorIdx t]⟩, none) := by
  unfold declareAction
  rw [ht]
  simp [hterm, hlook, hR, ← hptr, hflag, emit]

/-- Resetting flags preserves every hit point. -/
theorem map_hp_map_resetFlags (cs : List Combatant) :
    (cs.map resetFlags).map (·.hp) = cs.map (·.hp) := by
  rw [List.map_map]
  exact List.map_congr_left (fun a _ => rfl)

/-- Consuming a flag preserves every hit point. -/
theorem map_hp_modifyAt_setFlag (cs : List Combatant) (i : Nat)
    (t : ActionType) :
    (modifyAt cs i (setFlagUsed t)).map (·.hp) = cs.map (·.hp) :=
  map_modifyAt_invariant (·.hp) (setFlagUsed t) (by intro a; cases t <;> rfl)
    cs i

/-- Each operation appends events to the log whose replay, from any
state observably equal to the pre-state, reconstructs the post-state. -/
theorem applyOp_replay_step (e : Encounter) (op : Op) (s : Encounter)
    (hse : StateEq s e) :
    ∃ evs, (applyOp e op).1.log = e.log ++ evs ∧
      StateEq (replay s evs) (applyOp e op).1 := by
  obtain ⟨h1, h2, h3⟩ := hse
  cases op with
  | advance =>
    simp only [applyOp]
    unfold advanceTurn
    repeat' split
    all_goals first
      | exact ⟨[], (List.append_nil _).symm, h1, h2, h3⟩
      | (refine ⟨_, rfl, ?_, ?_, ?_⟩ <;>
          simp only [replay, List.foldl_cons, List.foldl_nil, applyEvent,
            emit] <;>
          first
            | (rw [map_hp_map_resetFlags, map_hp_map_resetFlags]; exact h1)
            | exact h1
            | exact h2
            | exact h3
            | rfl)
  | declare d =>
    simp only [applyOp]
    unfold declareAction
    repeat' split
    all_goals first
      | exact ⟨[], (List.append_nil _).symm, h1, h2, h3⟩
      | (refine ⟨_, rfl, ?_, ?_, ?_⟩ <;>
          simp only [replay, List.foldl_cons, List.foldl_nil, applyEvent,
            emit] <;>
          first
            | (rw [map_hp_modifyAt_setFlag, map_hp_modifyAt_setFlag]; exact h1)
            | exact h1
            | exact h2
            | exact h3
            | rfl)
  | attack a tgt atk dmg rng =>
    simp only [applyOp]
    unfold attackResolve
    repeat' split
    all_goals first
      | exact ⟨[], (List.append_nil _).symm, h1, h2, h3⟩
      | (refine ⟨_, rfl, ?_, ?_, ?_⟩ <;>
          simp only [replay, List.foldl_cons, List.foldl_nil, applyEvent,
            emit, attackApply] <;>
          first
            | (rw [map_hp_modifyAt_const, map_hp_modifyAt_const, h1])
            | exact h1
            | exact h2
            | exact h3
            | rfl)

/-- The replay invariant is preserved along any run of operations. -/
theorem runOps_replay_invariant (e0 : Encounter) :
    ∀ (ops : List Op) (e : Encounter),
      StateEq (replay e0 e.log) e →
      StateEq (replay e0 (runOps e ops).log) (runOps e ops) := by
  intro ops
  induction ops with
  | nil => intro e h; exact h
  | cons op ops ih =>
    intro e h
    obtain ⟨evs, hlog, hstep⟩ := applyOp_replay_step e op (replay e0 e.log) h
    have hnext : StateEq (replay e0 (applyOp e op).1.log) (applyOp e op).1 := by
      rw [hlog]
      unfold replay
      rw [List.foldl_append]
      exact hstep
    exact ih _ hnext

/-- Replaying initiative-roll events changes nothing. -/
theorem replay_initLog (cs : List Combatant) :
    ∀ (j : Nat) (s : Encounter), replay s (initLog cs j) = s := by
  induction cs with
  | nil => intro j s; rfl
  | cons c rest ih => intro j s; exact ih (j + 1) s

/-- The shape of a freshly started encounter: round 1, pointer 0, and a
log of initiative rolls only. -/
theorem startEncounter_ok_shape {specs : List CombatantSpec} {rs : Ruleset}
    {rng : Nat → Nat} {e0 : Encounter}
    (h : startEncounter specs rs rng = .ok e0) :
    e0.round = 1 ∧ e0.turnPtr = 0 ∧ e0.log = initLog e0.combatants 0 := by
  unfold startEncounter at h
  split at h
  · cases h
  · split at h
    · cases h
    next fs =>
      split at h
      · cases h
      next ex =>
        split at h
        · cases h
        next vals =>
          injection h with h2
          subst h2
          exact ⟨rfl, rfl, rfl⟩

/-- C1: on every form submission whose trimmed input text is non-empty,
the client script posts the command to the server at `/send` as a
URL-encoded `player_input` field, and appends to the message log the
player message followed by the rendering of the server response. -/
theorem c1_submit_posts_and_renders (st : ClientState) (o : FetchOutcome)
    (h : jsTrim st.inputValue ≠ "") :
    (handleSubmit st o).requests =
      [⟨"/send", "POST", "application/x-www-form-urlencoded",
        "player_input=" ++ encodeURIComponentStr (jsTrim st.inputValue)⟩] ∧
    (handleSubmit st o).state.messageLog =
      st.messageLog ++ [playerMessage (jsTrim st.inputValue)]
        ++ renderResponse o := by
  unfold handleSubmit
  simp [h]

/-- Witness for C1 at a concrete state and outcome. -/
theorem c1_submit_posts_and_renders_witness :
    jsTrim "  roll 1d20 " ≠ "" ∧
    ((handleSubmit ⟨[], "  roll 1d20 "⟩ (.json "roll" "You rolled 7" "" none)).requests =
      [⟨"/send", "POST", "application/x-www-form-urlencoded",
        "player_input=" ++ encodeURIComponentStr (jsTrim "  roll 1d20 ")⟩] ∧
    (handleSubmit ⟨[], "  roll 1d20 "⟩ (.json "roll" "You rolled 7" "" none)).state.messageLog =
      [] ++ [playerMessage (jsTrim "  roll 1d20 ")]
        ++ renderResponse (.json "roll" "You rolled 7" "" none)) :=
  ⟨by decide,
   c1_submit_posts_and_renders ⟨[], "  roll 1d20 "⟩
     (.json "roll" "You rolled 7" "" none) (by decide)⟩

/-- C9: when the input text trims to the empty string the submit handler
is a no-op apart from preventing the default submit: no request is made
and the client state (message log and input field) is unchanged. -/
theorem c9_empty_input_noop (st : ClientState) (o : FetchOutcome)
    (h : jsTrim st.inputValue = "") :
    handleSubmit st o = ⟨st, []⟩ := by
  unfold handleSubmit
  simp [h]

/-- Witness for C9 at a concrete whitespace-only input. -/
theorem c9_empty_input_noop_witness :
    jsTrim "   " = "" ∧
    handleSubmit ⟨[⟨"message dm-message", "hello"⟩], "   "⟩ .failure =
      ⟨⟨[⟨"message dm-message", "hello"⟩], "   "⟩, []⟩ :=
  ⟨by decide,
   c9_empty_input_noop ⟨[⟨"message dm-message", "hello"⟩], "   "⟩ .failure
     (by decide)⟩

/-- C10: a server response that parses as JSON but whose `type` field is
none of `roll`, `narrative`, `command` produces no DM message and no
error message: everything the handler appends to the message log (at most
the player's own echo) has the player-message class. -/
theorem c10_unknown_type_dropped (st : ClientState)
    (t fm rsp : String) (res : Option String)
    (h1 : t ≠ "roll") (h2 : t ≠ "narrative") (h3 : t ≠ "command") :
    ∃ appended,
      (handleSubmit st (.json t fm rsp res)).state.messageLog =
        st.messageLog ++ appended ∧
      ∀ m ∈ appended, m.className = "message player-message" := by
  unfold handleSubmit
  by_cases he : jsTrim st.inputValue = ""
  · exact ⟨[], by simp [he]⟩
  · refine ⟨[playerMessage (jsTrim st.inputValue)], ?_, ?_⟩
    · simp [he, renderResponse, h1, h2, h3]
    · intro m hm
      simp at hm
      subst hm
      rfl

/-- Witness for C10 at a concrete state and unknown response type. -/
theorem c10_unknown_type_dropped_witness :
    ("weird" ≠ "roll" ∧ "weird" ≠ "narrative" ∧ "weird" ≠ "command") ∧
    ∃ appended,
      (handleSubmit ⟨[], "hi"⟩ (.json "weird" "f" "r" none)).state.messageLog =
        [] ++ appended ∧
      ∀ m ∈ appended, m.className = "message player-message" :=
  ⟨by decide,
   c10_unknown_type_dropped ⟨[], "hi"⟩ "weird" "f" "r" none
     (by decide) (by decide) (by decide)⟩

/-- C4: for every well-formed dice expression of the form `NdM+k` and
every random source, `evaluateFormula` returns a total lying within the
closed interval `[N+k, N*M+k]`. -/
theorem c4_evaluateFormula_bounds (s : String) (ctx : List (String × Int))
    (rng : Nat → Nat) (n m : Nat) (k : Int) (res : RollResult)
    (hp : parseFormula s = .ok ⟨n, m, .num k⟩)
    (he : evaluateFormula s ctx rng = .ok res) :
    (n : Int) + k ≤ res.total ∧ res.total ≤ (n : Int) * (m : Int) + k := by
  obtain ⟨hn, hm⟩ := parseFormula_ok_pos hp
  unfold evaluateFormula at he
  rw [hp] at he
  unfold evalDiceExpr at he
  simp only [resolveModifier] at he
  injection he with h2
  subst h2
  have hb := natList_sum_bounds m (rollDice rng n m)
    (rollDice_mem_bounds rng n m hm)
  have hlen : (rollDice rng n m).length = n := by simp [rollDice]
  rw [hlen] at hb
  constructor
  · have hc : (n : Int) ≤ ((rollDice rng n m).sum : Int) := by
      exact_mod_cast hb.1
    simpa using add_le_add_right hc k
  · have hc : ((rollDice rng n m).sum : Int) ≤ (n : Int) * (m : Int) := by
      exact_mod_cast hb.2
    simpa using add_le_add_right hc k

/-- Witness for C4 at the concrete expression `2d6+3` and a concrete
random source. -/
theorem c4_evaluateFormula_bounds_witness :
    (parseFormula "2d6+3" = .ok ⟨2, 6, .num 3⟩ ∧
     evaluateFormula "2d6+3" [] (fun i => 5 + i) = .ok ⟨[6, 1], 10⟩) ∧
    ((2 : Int) + 3 ≤ (10 : Int) ∧
     (10 : Int) ≤ (2 : Int) * (6 : Int) + 3) :=
  ⟨⟨by rfl, by rfl⟩,
   c4_evaluateFormula_bounds "2d6+3" [] (fun i => 5 + i) 2 6 3 ⟨[6, 1], 10⟩
     (by rfl) (by rfl)⟩

/-- C8: the log is append-only under every operation: `emit` only appends
a new entry (returning its sequence number, the previous log length) and
never mutates prior entries, every engine operation only extends the log,
and every client handler path only appends messages to the message log. -/
theorem c8_log_append_only :
    (∀ (e : Encounter) (ev : Event),
      (emit e ev).1.log = e.log ++ [ev] ∧ (emit e ev).2 = e.log.length) ∧
    (∀ (e : Encounter) (op : Op), ∃ t, (applyOp e op).1.log = e.log ++ t) ∧
    (∀ (st : ClientState) (o : FetchOutcome), ∃ t,
      (handleSubmit st o).state.messageLog = st.messageLog ++ t) := by
  refine ⟨fun e ev => ⟨rfl, rfl⟩, applyOp_log_extends, fun st o => ?_⟩
  unfold handleSubmit
  by_cases h : jsTrim st.inputValue = ""
  · exact ⟨[], by simp [h]⟩
  · exact ⟨[playerMessage (jsTrim st.inputValue)] ++ renderResponse o,
      by simp [h]⟩

/-- C3: every engine operation that fails with any error kind leaves the
encounter exactly as it was — operations are atomic, either fully applied
and logged or rejected with no mutation. -/
theorem c3_failed_op_no_mutation (e : Encounter) (op : Op)
    (err : EngineError) (h : (applyOp e op).2 = some err) :
    (applyOp e op).1 = e := by
  rcases applyOp_frame_or_ok e op with h1 | h1
  · exact h1
  · rw [h1] at h
    cases h

/-- Witness for C3: an unrecognized action type is rejected with
`InvalidActionTypeError` and no mutation. -/
theorem c3_failed_op_no_mutation_witness :
    ((applyOp ⟨[], 1, 0, []⟩ (.declare ⟨0, "fly", none, false⟩)).2 =
      some .InvalidActionTypeError) ∧
    (applyOp ⟨[], 1, 0, []⟩ (.declare ⟨0, "fly", none, false⟩)).1 =
      ⟨[], 1, 0, []⟩ :=
  ⟨by rfl,
   c3_failed_op_no_mutation ⟨[], 1, 0, []⟩ (.declare ⟨0, "fly", none, false⟩)
     .InvalidActionTypeError (by rfl)⟩

/-- C6: after a first successful `declareAction` of a non-reaction type,
a second `declareAction` of the same type by the same combatant in the
same round (the round is unchanged by a declaration) fails with
`ActionAlreadyUsedError`. -/
theorem c6_second_declare_fails (e : Encounter) (d d' : ActionDeclaration)
    (t : ActionType)
    (ht : parseActionType d.atype = some t)
    (ht' : parseActionType d'.atype = some t)
    (hactor : d'.actorIdx = d.actorIdx)
    (hsmb : t ≠ .Reaction)
    (hsucc : (declareAction e d).2 = none) :
    (declareAction (declareAction e d).1 d').2 =
      some .ActionAlreadyUsedError := by
  obtain ⟨hterm, hptr, c, hlook, hflag⟩ :=
    declareAction_none_conditions ht hsmb hsucc
  rw [declareAction_success_eq ht hsmb hterm hlook hptr hflag]
  have hterm1 :
      terminalB (modifyAt e.combatants d.actorIdx (setFlagUsed t)) = false := by
    show terminalOfSig (sigOf _) = false
    rw [sigOf_modifyAt_setFlag]
    exact hterm
  have hlook1 :
      (modifyAt e.combatants d.actorIdx (setFlagUsed t))[d.actorIdx]? =
        some (setFlagUsed t c) := by
    rw [modifyAt_getElem_self, hlook]
    rfl
  unfold declareAction
  rw [ht']
  simp [hterm1, hlook1, hsmb, hactor, ← hptr, flagUsed_setFlagUsed_self]

/-- Witness for C6: a combatant declares two standard actions on the same
turn; the second is rejected with `ActionAlreadyUsedError`. -/
theorem c6_second_declare_fails_witness :
    (parseActionType "standard" = some .Standard ∧
     (declareAction
        ⟨[⟨7, 0, [], 12, 0, 0, 5, 10, false, false, false, false, []⟩],
         1, 0, []⟩ ⟨0, "standard", none, false⟩).2 = none) ∧
    (declareAction
      (declareAction
        ⟨[⟨7, 0, [], 12, 0, 0, 5, 10, false, false, false, false, []⟩],
         1, 0, []⟩ ⟨0, "standard", none, false⟩).1
      ⟨0, "standard", some 1, false⟩).2 = some .ActionAlreadyUsedError :=
  ⟨⟨by rfl, by rfl⟩,
   c6_second_declare_fails
     ⟨[⟨7, 0, [], 12, 0, 0, 5, 10, false, false, false, false, []⟩], 1, 0, []⟩
     ⟨0, "standard", none, false⟩ ⟨0, "standard", some 1, false⟩ .Standard
     (by rfl) (by rfl) (by rfl) (by decide) (by rfl)⟩

/-- C2: replaying the full event log of an encounter reached from
`startEncounter` by any sequence of operations reconstructs, from the
initial state, the same final encounter state: the same hit points,
round number, and turn pointer. -/
theorem c2_replay_reconstructs (specs : List CombatantSpec) (rs : Ruleset)
    (rng : Nat → Nat) (e0 : Encounter) (ops : List Op)
    (h0 : startEncounter specs rs rng = .ok e0) :
    StateEq (replay e0 (runOps e0 ops).log) (runOps e0 ops) := by
  obtain ⟨hrd, hpt, hlg⟩ := startEncounter_ok_shape h0
  have hbase : StateEq (replay e0 e0.log) e0 := by
    rw [hlg, replay_initLog]
    exact ⟨rfl, rfl, rfl⟩
  exact runOps_replay_invariant e0 ops e0 hbase

/-- Witness for C2 on a concrete two-combatant encounter, advancing the
turn and declaring an action. -/
theorem c2_replay_reconstructs_witness :
    (startEncounter [⟨1, 0, [], 0, 10, 10, none⟩, ⟨2, 1, [], 0, 8, 10, none⟩]
        ⟨some "1d20", true, true, false, none⟩ (fun i => i) =
      .ok ⟨[⟨2, 1, [], 2, 0, 1, 8, 10, false, false, false, false, []⟩,
            ⟨1, 0, [], 1, 0, 0, 10, 10, false, false, false, false, []⟩],
           1, 0, [.InitiativeRolled 0 2, .InitiativeRolled 1 1]⟩) ∧
    StateEq
      (replay
        ⟨[⟨2, 1, [], 2, 0, 1, 8, 10, false, false, false, false, []⟩,
          ⟨1, 0, [], 1, 0, 0, 10, 10, false, false, false, false, []⟩],
         1, 0, [.InitiativeRolled 0 2, .InitiativeRolled 1 1]⟩
        (runOps
          ⟨[⟨2, 1, [], 2, 0, 1, 8, 10, false, false, false, false, []⟩,
            ⟨1, 0, [], 1, 0, 0, 10, 10, false, false, false, false, []⟩],
           1, 0, [.InitiativeRolled 0 2, .InitiativeRolled 1 1]⟩
          [.advance, .declare ⟨1, "standard", none, false⟩]).log)
      (runOps
        ⟨[⟨2, 1, [], 2, 0, 1, 8, 10, false, false, false, false, []⟩,
          ⟨1, 0, [], 1, 0, 0, 10, 10, false, false, false, false, []⟩],
         1, 0, [.InitiativeRolled 0 2, .InitiativeRolled 1 1]⟩
        [.advance, .declare ⟨1, "standard", none, false⟩]) :=
  ⟨by rfl,
   c2_replay_reconstructs
     [⟨1, 0, [], 0, 10, 10, none⟩, ⟨2, 1, [], 0, 8, 10, none⟩]
     ⟨some "1d20", true, true, false, none⟩ (fun i => i)
     ⟨[⟨2, 1, [], 2, 0, 1, 8, 10, false, false, false, false, []⟩,
       ⟨1, 0, [], 1, 0, 0, 10, 10, false, false, false, false, []⟩],
      1, 0, [.InitiativeRolled 0 2, .InitiativeRolled 1 1]⟩
     [.advance, .declare ⟨1, "standard", none, false⟩] (by rfl)⟩

/-- Rolled dice depend only on the first `n` draws of the source. -/
theorem rollDice_congr {r1 r2 : Nat → Nat} {n m : Nat}
    (h : ∀ i, i < n → r1 i = r2 i) :
    rollDice r1 n m = rollDice r2 n m := by
  unfold rollDice
  exact List.map_congr_left (fun i hi => by rw [h i (List.mem_range.mp hi)])

/-- Formula evaluation depends only on the first `ex.n` draws. -/
theorem evalDiceExpr_congr {ex : DiceExpr} {ctx : List (String × Int)}
    {r1 r2 : Nat → Nat} (h : ∀ i, i < ex.n → r1 i = r2 i) :
    evalDiceExpr ex ctx r1 = evalDiceExpr ex ctx r2 := by
  unfold evalDiceExpr
  rw [rollDice_congr h]

/-- Rolling initiatives depends only on the draws actually consumed. -/
theorem rollInits_congr (ex : DiceExpr) {r1 r2 : Nat → Nat} :
    ∀ (specs : List CombatantSpec) (j : Nat),
      (∀ i, i < (j + specs.length) * ex.n → r1 i = r2 i) →
      rollInits ex r1 specs j = rollInits ex r2 specs j := by
  intro specs
  induction specs with
  | nil => intro j h; rfl
  | cons sp rest ih =>
    intro j h
    unfold rollInits
    have hone :
        (evalDiceExpr ex sp.stats (shiftRng r1 (j * ex.n))) =
          (evalDiceExpr ex sp.stats (shiftRng r2 (j * ex.n))) := by
      refine evalDiceExpr_congr (fun i hi => ?_)
      show r1 (j * ex.n + i) = r2 (j * ex.n + i)
      refine h _ ?_
      have hmul : (j + 1) * ex.n = j * ex.n + ex.n := by ring
      have h1 : j * ex.n + i < (j + 1) * ex.n := by omega
      have h2 : (j + 1) * ex.n ≤ (j + (rest.length + 1)) * ex.n :=
        Nat.mul_le_mul_right _ (by omega)
      calc j * ex.n + i < (j + 1) * ex.n := h1
        _ ≤ (j + (rest.length + 1)) * ex.n := h2
    have hrest := ih (j + 1) (fun i hi => h i (by
      have : (j + 1 + rest.length) = j + (rest.length + 1) := by omega
      rw [this] at hi
      simpa using hi))
    rw [hone, hrest]

/-- C7: two runs of `startEncounter` whose injected random sources agree
on every draw the initiative rolls can consume produce the same result —
in particular the same initiative ordering. -/
theorem c7_startEncounter_deterministic (specs : List CombatantSpec)
    (rs : Ruleset) (r1 r2 : Nat → Nat)
    (h : ∀ i, i < specs.length * initDiceCount rs → r1 i = r2 i) :
    startEncounter specs rs r1 = startEncounter specs rs r2 := by
  unfold startEncounter
  split
  · rfl
  · split
    · rfl
    next fs heq1 =>
      split
      · rfl
      next ex heq2 =>
        have hn : initDiceCount rs = ex.n := by
          simp [initDiceCount, heq1, heq2]
        have hb : ∀ i, i < (0 + specs.length) * ex.n → r1 i = r2 i := by
          intro i hi
          refine h i ?_
          rw [hn]
          simpa using hi
        rw [rollInits_congr ex specs 0 hb]

/-- Witness for C7: sources that agree on the two consumed draws but
differ later give identical encounters. -/
theorem c7_startEncounter_deterministic_witness :
    (∀ i, i < ([⟨1, 0, [], 0, 10, 10, none⟩,
                ⟨2, 1, [], 0, 8, 10, none⟩] :
          List CombatantSpec).length *
        initDiceCount ⟨some "1d20", true, true, false, none⟩ →
      (fun n => n) i = (fun n => if n < 2 then n else n + 99) i) ∧
    startEncounter [⟨1, 0, [], 0, 10, 10, none⟩, ⟨2, 1, [], 0, 8, 10, none⟩]
        ⟨some "1d20", true, true, false, none⟩ (fun n => n) =
      startEncounter [⟨1, 0, [], 0, 10, 10, none⟩, ⟨2, 1, [], 0, 8, 10, none⟩]
        ⟨some "1d20", true, true, false, none⟩
        (fun n => if n < 2 then n else n + 99) :=
  ⟨by decide,
   c7_startEncounter_deterministic
     [⟨1, 0, [], 0, 10, 10, none⟩, ⟨2, 1, [], 0, 8, 10, none⟩]
     ⟨some "1d20", true, true, false, none⟩ (fun n => n)
     (fun n => if n < 2 then n else n + 99) (by decide)⟩

/-- Nothing in a strictly sorted list exceeds its last entry. -/
theorem find?_gt_last (L : Nat) :
    ∀ fr : List Nat, (fr ++ [L]).Pairwise (· < ·) →
      List.find? (fun j => decide (L < j)) (fr ++ [L]) = none := by
  intro fr
  induction fr with
  | nil =>
    intro _
    simp [List.find?]
  | cons x fr ih =>
    intro hp
    have hxL : x < L := (List.pairwise_cons.mp hp).1 L (by simp)
    rw [List.cons_append, List.find?_cons_of_neg]
    · exact ih (List.pairwise_cons.mp hp).2
    · simp only [decide_eq_true_eq]
      omega

/-- In a strictly sorted list, the first entry greater than `p` is the
one right after `p`. -/
theorem find?_gt_middle (p y : Nat) :
    ∀ (xs ys : List Nat), (xs ++ p :: y :: ys).Pairwise (· < ·) →
      List.find? (fun j => decide (p < j)) (xs ++ p :: y :: ys) = some y := by
  intro xs
  induction xs with
  | nil =>
    intro ys hp
    have hpy : p < y := (List.pairwise_cons.mp hp).1 y (by simp)
    rw [List.nil_append]
    rw [List.find?_cons_of_neg]
    · exact List.find?_cons_of_pos _ (by simp [hpy])
    · simp
  | cons x xs ih =>
    intro ys hp
    have hxp : x < p := (List.pairwise_cons.mp hp).1 p (by simp)
    rw [List.cons_append, List.find?_cons_of_neg]
    · exact ih ys (List.pairwise_cons.mp hp).2
    · simp only [decide_eq_true_eq]
      omega

/-- Reading the entry at the split point. -/
theorem nth_append_mid (p : Nat) :
    ∀ (xs ys : List Nat), nth (xs ++ p :: ys) xs.length = p := by
  intro xs
  induction xs with
  | nil => intro ys; rfl
  | cons x xs ih =>
    intro ys
    rw [List.cons_append, List.length_cons]
    exact ih ys

/-- Every nonempty list splits off its last entry, read through `nth`. -/
theorem cons_split_last :
    ∀ (ys : List Nat) (q : Nat),
      ∃ front, q :: ys = front ++ [nth (q :: ys) ys.length] := by
  intro ys
  induction ys with
  | nil => intro q; exact ⟨[], rfl⟩
  | cons y ys ih =>
    intro q
    obtain ⟨f, hf⟩ := ih y
    refine ⟨q :: f, ?_⟩
    rw [List.length_cons]
    show q :: y :: ys = (q :: f) ++ [nth (y :: ys) ys.length]
    rw [List.cons_append, ← hf]

/-- On a nonempty position list the cyclic successor always exists. -/
theorem cycNext_isSome {l : List Nat} (hne : l ≠ []) (p : Nat) :
    ∃ qwr, cycNext l p = some qwr := by
  unfold cycNext
  split
  · exact ⟨_, rfl⟩
  · cases l with
    | nil => exact absurd rfl hne
    | cons j0 t => exact ⟨(j0, true), rfl⟩

/-- A pointer with no cyclic successor never moves. -/
theorem iterCyc_stuck {l : List Nat} {p : Nat} (h : cycNext l p = none) :
    ∀ k, iterCyc l k p = (p, 0) := by
  intro k
  cases k with
  | zero => rfl
  | succ k => simp [iterCyc, h]

/-- Orbit steps compose; wrap counts add. -/
theorem iterCyc_add (l : List Nat) :
    ∀ (a b p : Nat),
      iterCyc l (a + b) p =
        ((iterCyc l b (iterCyc l a p).1).1,
         (iterCyc l a p).2 + (iterCyc l b (iterCyc l a p).1).2) := by
  intro a
  induction a with
  | zero =>
    intro b p
    simp [iterCyc]
  | succ a ih =>
    intro b p
    have hsa : a + 1 + b = (a + b) + 1 := by omega
    rw [hsa]
    cases hcn : cycNext l p with
    | none => simp [iterCyc_stuck hcn]
    | some qwr =>
      obtain ⟨q, wr⟩ := qwr
      simp only [iterCyc, hcn]
      rw [ih b q]
      simp only [Prod.mk.injEq]
      constructor
      · first
          | rfl
          | trivial
      · omega

/-- Walking forward inside the sorted tail: `k` steps from `p` reach the
`k`-th entry after `p`, with no wrap. -/
theorem iterCyc_phase :
    ∀ (k : Nat) (xs : List Nat) (p : Nat) (ys : List Nat) (l : List Nat),
      l = xs ++ p :: ys → l.Pairwise (· < ·) → k ≤ ys.length →
      iterCyc l k p = (nth (p :: ys) k, 0) := by
  intro k
  induction k with
  | zero => intro xs p ys l hl hp hk; rfl
  | succ k ih =>
    intro xs p ys l hl hp hk
    cases ys with
    | nil => simp at hk
    | cons y ys' =>
      have hfind : List.find? (fun j => decide (p < j)) l = some y := by
        rw [hl]
        exact find?_gt_middle p y xs ys' (hl ▸ hp)
      have hcn : cycNext l p = some (y, false) := by
        unfold cycNext
        rw [hfind]
      have hl' : l = (xs ++ [p]) ++ y :: ys' := by
        rw [hl]
        simp
      have hrec := ih (xs ++ [p]) y ys' l hl' hp (by simpa using hk)
      simp [iterCyc, hcn, hrec, nth]

/-- A full cycle over a strictly sorted position list returns the pointer
to its start with exactly one wrap. -/
theorem iterCyc_full (l xs ys : List Nat) (p : Nat)
    (hl : l = xs ++ p :: ys) (hp : l.Pairwise (· < ·)) :
    iterCyc l l.length p = (p, 1) := by
  have hlen : l.length = ys.length + (xs.length + 1) := by
    rw [hl]
    simp [List.length_append]
    omega
  rw [hlen, iterCyc_add]
  have hph1 := iterCyc_phase ys.length xs p ys l hl hp (Nat.le_refl _)
  rw [hph1]
  obtain ⟨front, hfr⟩ := cons_split_last ys p
  set L := nth (p :: ys) ys.length with hL
  have hl2 : l = (xs ++ front) ++ [L] := by
    rw [hl, hfr, List.append_assoc]
  have hfindL : List.find? (fun j => decide (L < j)) l = none := by
    rw [hl2]
    exact find?_gt_last _ (xs ++ front) (hl2 ▸ hp)
  obtain ⟨h0, tail, rfl⟩ : ∃ h0 tail, l = h0 :: tail := by
    cases l with
    | nil =>
      exfalso
      cases xs <;> simp at hl
    | cons a b => exact ⟨a, b, rfl⟩
  have hcnL : cycNext (h0 :: tail) L = some (h0, true) := by
    unfold cycNext
    rw [hfindL]
  have hlen2 : xs.length ≤ tail.length := by
    have e1 : (h0 :: tail).length = xs.length + (ys.length + 1) := by
      rw [hl]
      simp [List.length_append]
    simp at e1
    omega
  have hph2 := iterCyc_phase xs.length [] h0 tail (h0 :: tail) rfl hp hlen2
  have hnth : nth (h0 :: tail) xs.length = p := by
    rw [hl]
    exact nth_append_mid p xs ys
  simp [iterCyc, hcnL, hph2, hnth]

/-- Active positions form a strictly sorted list. -/
theorem activeIdxs_sorted (cs : List Combatant) :
    (activeIdxs cs).Pairwise (· < ·) := by
  unfold activeIdxs activeIdxsOfMask
  exact (List.pairwise_lt_range _).filter _

/-- One successful `advanceTurn` moves the pointer to the cyclic
successor of the active positions, bumps the round exactly on wrap, and
preserves every side/activity signature. -/
theorem advanceTurn_step {e : Encounter} {q : Nat} {wr : Bool}
    (hterm : terminalB e.combatants = false)
    (hcn : cycNext (activeIdxs e.combatants) e.turnPtr = some (q, wr)) :
    (advanceTurn e).1.turnPtr = q ∧
    (advanceTurn e).1.round = e.round + (if wr then 1 else 0) ∧
    sigOf (advanceTurn e).1.combatants = sigOf e.combatants := by
  cases wr with
  | false =>
    refine ⟨?_, ?_, ?_⟩ <;> simp [advanceTurn, hterm, hcn, emit]
  | true =>
    refine ⟨?_, ?_, ?_⟩ <;>
      simp [advanceTurn, hterm, hcn, emit, sigOf_map_resetFlags]

/-- Iterating `advanceTurn` follows the orbit of the cyclic successor on
the (unchanging) active positions, accumulating the wrap count into the
round number. -/
theorem advanceTurnN_corr :
    ∀ (k : Nat) (e : Encounter),
      terminalB e.combatants = false →
      activeIdxs e.combatants ≠ [] →
      (advanceTurnN e k).turnPtr =
        (iterCyc (activeIdxs e.combatants) k e.turnPtr).1 ∧
      (advanceTurnN e k).round =
        e.round + (iterCyc (activeIdxs e.combatants) k e.turnPtr).2 ∧
      sigOf (advanceTurnN e k).combatants = sigOf e.combatants := by
  intro k
  induction k with
  | zero => intro e h1 h2; exact ⟨rfl, by simp [advanceTurnN, iterCyc], rfl⟩
  | succ k ih =>
    intro e hterm hne
    obtain ⟨⟨q, wr⟩, hcn⟩ := cycNext_isSome hne e.turnPtr
    obtain ⟨hs1, hs2, hs3⟩ := advanceTurn_step hterm hcn
    have hterm1 : terminalB (advanceTurn e).1.combatants = false := by
      show terminalOfSig (sigOf _) = false
      rw [hs3]
      exact hterm
    have hact1 :
        activeIdxs (advanceTurn e).1.combatants = activeIdxs e.combatants := by
      show activeIdxsOfMask ((sigOf _).map (·.2)) = _
      rw [hs3]
      rfl
    have hne1 : activeIdxs (advanceTurn e).1.combatants ≠ [] := by
      rw [hact1]
      exact hne
    obtain ⟨ih1, ih2, ih3⟩ := ih (advanceTurn e).1 hterm1 hne1
    refine ⟨?_, ?_, ?_⟩
    · show (advanceTurnN (advanceTurn e).1 k).turnPtr = _
      rw [ih1, hact1, hs1]
      simp [iterCyc, hcn]
    · show (advanceTurnN (advanceTurn e).1 k).round = _
      rw [ih2, hact1, hs1, hs2]
      simp only [iterCyc, hcn]
      omega
    · show sigOf (advanceTurnN (advanceTurn e).1 k).combatants = _
      rw [ih3, hs3]

/-- C5: on a non-terminal encounter whose turn pointer rests on an
active combatant, calling `advanceTurn` once per active combatant
returns the pointer to its original position and increments the round by
exactly one. -/
theorem c5_advanceTurn_cycle (e : Encounter)
    (hterm : terminalB e.combatants = false)
    (hmem : e.turnPtr ∈ activeIdxs e.combatants) :
    (advanceTurnN e (activeIdxs e.combatants).length).turnPtr = e.turnPtr ∧
    (advanceTurnN e (activeIdxs e.combatants).length).round = e.round + 1 := by
  have hne : activeIdxs e.combatants ≠ [] := List.ne_nil_of_mem hmem
  have hsort := activeIdxs_sorted e.combatants
  obtain ⟨xs, ys, hsplit⟩ := List.append_of_mem hmem
  have hfull := iterCyc_full (activeIdxs e.combatants) xs ys e.turnPtr
    hsplit hsort
  obtain ⟨h1, h2, h3⟩ :=
    advanceTurnN_corr (activeIdxs e.combatants).length e hterm hne
  rw [hfull] at h1 h2
  exact ⟨h1, h2⟩

/-- Witness for C5: three active combatants on two sides; three calls
return the pointer to position 0 and move round 1 to round 2. -/
theorem c5_advanceTurn_cycle_witness :
    (terminalB
        [⟨1, 0, [], 3, 0, 0, 5, 10, false, false, false, false, []⟩,
         ⟨2, 1, [], 2, 0, 1, 6, 10, false, false, false, false, []⟩,
         ⟨3, 0, [], 1, 0, 2, 7, 10, false, false, false, false, []⟩] = false ∧
     (0 : Nat) ∈ activeIdxs
        [⟨1, 0, [], 3, 0, 0, 5, 10, false, false, false, false, []⟩,
         ⟨2, 1, [], 2, 0, 1, 6, 10, false, false, false, false, []⟩,
         ⟨3, 0, [], 1, 0, 2, 7, 10, false, false, false, false, []⟩]) ∧
    ((advanceTurnN
        ⟨[⟨1, 0, [], 3, 0, 0, 5, 10, false, false, false, false, []⟩,
          ⟨2, 1, [], 2, 0, 1, 6, 10, false, false, false, false, []⟩,
          ⟨3, 0, [], 1, 0, 2, 7, 10, false, false, false, false, []⟩], 1, 0, []⟩
        (activeIdxs
          [⟨1, 0, [], 3, 0, 0, 5, 10, false, false, false, false, []⟩,
           ⟨2, 1, [], 2, 0, 1, 6, 10, false, false, false, false, []⟩,
           ⟨3, 0, [], 1, 0, 2, 7, 10, false, false, false, false, []⟩]).length).turnPtr
       = 0 ∧
     (advanceTurnN
        ⟨[⟨1, 0, [], 3, 0, 0, 5, 10, false, false, false, false, []⟩,
          ⟨2, 1, [], 2, 0, 1, 6, 10, false, false, false, false, []⟩,
          ⟨3, 0, [], 1, 0, 2, 7, 10, false, false, false, false, []⟩], 1, 0, []⟩
        (activeIdxs
          [⟨1, 0, [], 3, 0, 0, 5, 10, false, false, false, false, []⟩,
           ⟨2, 1, [], 2, 0, 1, 6, 10, false, false, false, false, []⟩,
           ⟨3, 0, [], 1, 0, 2, 7, 10, false, false, false, false, []⟩]).length).round
       = 1 + 1) :=
  ⟨⟨by decide, by decide⟩,
   c5_advanceTurn_cycle
     ⟨[⟨1, 0, [], 3, 0, 0, 5, 10, false, false, false, false, []⟩,
       ⟨2, 1, [], 2, 0, 1, 6, 10, false, false, false, false, []⟩,
       ⟨3, 0, [], 1, 0, 2, 7, 10, false, false, false, false, []⟩], 1, 0, []⟩
     (by decide) (by decide)⟩

end HollowHost
